import Mathlib

/-!
# bignums: chained arbitrary-precision arithmetic

A shallow embedding of `bignums.go` (`BigIntChain`, `convertToBigInt`, and of
`BigFloatChain` its construction, `operate`, `Divide` and `Value`) together with
the parts of Go's `math/big` that the chains drive.

Conventions of the embedding

* A `*big.Int` is an `Int`; the chain's accumulator field is an `Option Int`
  because `NewBigIntChain` stores the nil pointer there when coercion fails.
* A method that dereferences a nil accumulator panics in Go; the embedding
  returns `none` for the whole call in that case and `some` of the new chain
  otherwise.
* Operands of pointer type (`*big.Int`, `*big.Float`) are taken to be non-nil.
* The closures handed to `operate` write `bc.err` as a side effect; here they
  return the value together with the error they record, if any.
* Parsing a decimal float literal and the rounded quotient of two floats are
  not modelled; the float chain takes them as the fields of `BigFloatLib`.
-/

namespace Bignums

/-! ## Errors -/

/-- The errors built with `fmt.Errorf` in `bignums.go`, one constructor per message. -/
inductive ChainError where
  | mismatchedBrackets
  | divisionByZero
  | moduloByZero
  | exponentTooLarge
  | invalidNumericString
  | invalidHexFloatString
  | invalidFloatString
  | unsupportedType (typeName : String)
  deriving DecidableEq, Repr

deriving instance DecidableEq for Except

/-- The text of the error, as passed to `fmt.Errorf`. -/
def ChainError.Error : ChainError → String
  | .mismatchedBrackets => "mismatched brackets"
  | .divisionByZero => "division by zero"
  | .moduloByZero => "modulo by zero"
  | .exponentTooLarge => "exponent too large"
  | .invalidNumericString => "could not convert string to big.Int"
  | .invalidHexFloatString => "could not convert hex string to big.Float"
  | .invalidFloatString => "could not convert string to big.Float"
  | .unsupportedType t => "unsupported type: " ++ t

/-! ## The pieces of `math/big` and of the Go language that are used -/

/-- Conversion of an integer to `int64`: two's complement wrap-around. -/
def asInt64 (n : Int) : Int := (n + 2 ^ 63) % 2 ^ 64 - 2 ^ 63

/-- Conversion of an integer to `uint64`: reduction modulo `2^64`. -/
def asUint64 (n : Int) : Nat := (n % 2 ^ 64).toNat

/-- `(*big.Int).Int64`: the low 64 bits of the magnitude, read as an `int64`,
negated (in `int64`) when the number is negative. -/
def bigInt64 (x : Int) : Int :=
  let v := asInt64 ((x.natAbs % 2 ^ 64 : Nat) : Int)
  if x < 0 then asInt64 (-v) else v

/-- `(*big.Int).QuoRem`: truncated division, the quotient rounded toward zero
and the remainder with the sign of the dividend. The divisor is not zero. -/
def bigQuoRem (x y : Int) : Int × Int := (Int.tdiv x y, Int.tmod x y)

/-- `(*big.Int).Div`: `QuoRem` followed by the adjustment that makes the
remainder non-negative (Euclidean division). The divisor is not zero. -/
def bigDiv (x y : Int) : Int :=
  let qr := bigQuoRem x y
  if qr.2 < 0 then
    if y < 0 then qr.1 + 1 else qr.1 - 1
  else qr.1

/-- `(*big.Int).Mod`: `QuoRem` followed by the adjustment that makes the
remainder non-negative (Euclidean modulus). The divisor is not zero. -/
def bigMod (x y : Int) : Int :=
  let qr := bigQuoRem x y
  if qr.2 < 0 then
    if y < 0 then qr.2 - y else qr.2 + y
  else qr.2

/-- `(*big.Int).Exp(x, y, nil)`: `x**y`, and `1` when `y <= 0`. -/
def bigExp (x y : Int) : Int :=
  if y ≤ 0 then 1 else x ^ y.toNat

/-- The value of a digit character in `(*big.Int).SetString` for a base up to 36. -/
def digitVal (c : Char) : Option Nat :=
  if '0' ≤ c ∧ c ≤ '9' then some (c.toNat - '0'.toNat)
  else if 'a' ≤ c ∧ c ≤ 'z' then some (c.toNat - 'a'.toNat + 10)
  else if 'A' ≤ c ∧ c ≤ 'Z' then some (c.toNat - 'A'.toNat + 10)
  else none

/-- The digit loop of `SetString`: every character must be a digit below the
base; the accumulated magnitude is returned. -/
def scanDigits (base : Nat) : List Char → Nat → Option Nat
  | [], acc => some acc
  | c :: cs, acc =>
    match digitVal c with
    | some d => if d < base then scanDigits base cs (acc * base + d) else none
    | none => none

/-- `(*big.Int).SetString(s, base)` for a non-zero base: an optional sign, then
at least one digit, and nothing else. Gives `none` where Go reports failure. -/
def bigSetString (s : List Char) (base : Nat) : Option Int :=
  let signed : Bool × List Char :=
    match s with
    | '-' :: rest => (true, rest)
    | '+' :: rest => (false, rest)
    | _ => (false, s)
  match signed.2 with
  | [] => none
  | ds =>
    match scanDigits base ds 0 with
    | some n => some (if signed.1 then -(n : Int) else (n : Int))
    | none => none

/-- `strings.HasPrefix`. -/
def hasPrefix (s p : List Char) : Bool := p.isPrefixOf s

/-- `strings.TrimPrefix`. -/
def trimPrefix (s p : List Char) : List Char :=
  if hasPrefix s p then s.drop p.length else s

/-- A `*big.Float`: `mant * 2^exp`, or an infinity. -/
inductive BigFloat where
  | fin (mant : Int) (exp : Int)
  | inf (neg : Bool)
  deriving DecidableEq, Repr

/-- A native `float32` or `float64`: `mant * 2^exp`, an infinity, or NaN. -/
inductive NativeFloat where
  | fin (mant : Int) (exp : Int)
  | inf (neg : Bool)
  | nan
  deriving DecidableEq, Repr

/-- The integer part of `mant * 2^exp`, rounded toward zero. -/
def truncDyadic (mant exp : Int) : Int :=
  if 0 ≤ exp then mant * 2 ^ exp.toNat else Int.tdiv mant (2 ^ (-exp).toNat)

/-- `(*big.Float).Int(z)` with `z = new(big.Int)` and the result ignored, as the
source calls it: the truncated value, and `z` left at zero for an infinity. -/
def bigFloatInt : BigFloat → Int
  | .fin m e => truncDyadic m e
  | .inf _ => 0

/-- The conversion `int64(f)` of a native float: truncation toward zero when the
result fits; Go leaves the other cases to the platform, and the value taken
here is the one amd64 gives. -/
def floatToInt64 : NativeFloat → Int
  | .fin m e =>
    let t := truncDyadic m e
    if -(2 ^ 63) ≤ t ∧ t < 2 ^ 63 then t else -(2 ^ 63)
  | _ => -(2 ^ 63)

/-! ## Operands: the dynamic type of an `interface{}` argument -/

/-- The native signed integer types accepted by `convertToBigInt`. -/
inductive SignedType where
  | int | int64 | int32 | int16 | int8
  deriving DecidableEq, Repr

/-- The native unsigned integer types that share one case of `convertToBigInt`. -/
inductive UnsignedType where
  | uint | uint32 | uint16 | uint8
  deriving DecidableEq, Repr

/-- The native floating-point types. -/
inductive FloatType where
  | float32 | float64
  deriving DecidableEq, Repr

/-- Width in bits of a signed type (`int` on a 64-bit platform). -/
def SignedType.bits : SignedType → Nat
  | .int => 64 | .int64 => 64 | .int32 => 32 | .int16 => 16 | .int8 => 8

/-- Width in bits of an unsigned type (`uint` on a 64-bit platform). -/
def UnsignedType.bits : UnsignedType → Nat
  | .uint => 64 | .uint32 => 32 | .uint16 => 16 | .uint8 => 8

/-- A value passed as `interface{}`, tagged with its dynamic type. -/
inductive Operand where
  | bigInt (v : Int)
  | bigFloat (f : BigFloat)
  | signed (t : SignedType) (v : Int)
  | uint64 (v : Nat)
  | unsigned (t : UnsignedType) (v : Nat)
  | float (t : FloatType) (f : NativeFloat)
  | str (s : String)
  | other (typeName : String)
  deriving DecidableEq, Repr

/-- The operand holds a value its Go type can hold. -/
def Operand.wellTyped : Operand → Prop
  | .signed t v => -(2 ^ (t.bits - 1) : Int) ≤ v ∧ v < 2 ^ (t.bits - 1)
  | .uint64 v => v < 2 ^ 64
  | .unsigned t v => v < 2 ^ t.bits
  | _ => True

instance (o : Operand) : Decidable o.wellTyped := by
  cases o <;> unfold Operand.wellTyped <;> infer_instance

/-! ## `convertToBigInt` -/

/-- The `string` case of `convertToBigInt`. -/
def convertString (v : List Char) : Except ChainError Int :=
  let hex := hasPrefix v "0x".toList || hasPrefix v "0X".toList
  let base := if hex then 16 else 10
  let v := if hex then trimPrefix (trimPrefix v "0x".toList) "0X".toList else v
  match bigSetString v base with
  | some bigInt => .ok bigInt
  | none => .error .invalidNumericString

/-- `convertToBigInt`: the type switch over the operand. -/
def convertToBigInt : Operand → Except ChainError Int
  | .bigInt v => .ok v
  | .bigFloat f => .ok (bigFloatInt f)
  | .signed _ v => .ok (asInt64 v)
  | .uint64 v => .ok (v : Int)
  | .unsigned _ v => .ok (asInt64 (v : Int))
  | .float _ f => .ok (floatToInt64 f)
  | .str s => convertString s.toList
  | .other t => .error (.unsupportedType t)

/-! ## `BigIntChain` -/

/-- The chain: accumulator (`none` for the nil pointer), stack of saved
accumulators (last element on top, as `append` builds it), and error. -/
structure BigIntChain where
  value : Option Int
  stack : List Int
  err : Option ChainError
  deriving DecidableEq, Repr

/-- `NewBigIntChain`. -/
def NewBigIntChain (val : Operand) : BigIntChain :=
  match convertToBigInt val with
  | .ok bigInt => { value := some bigInt, stack := [], err := none }
  | .error err => { value := none, stack := [], err := some err }

namespace BigIntChain

/-- `Begin`: push a copy of the accumulator, reset the accumulator to zero. -/
def Begin (bc : BigIntChain) : Option BigIntChain :=
  match bc.value with
  | none => none
  | some v => some { bc with stack := bc.stack ++ [v], value := some 0 }

/-- `End`: record an error on an empty stack, else pop and add. -/
def End (bc : BigIntChain) : Option BigIntChain :=
  if bc.stack.length = 0 then
    some { bc with err := some .mismatchedBrackets }
  else
    match bc.stack.getLast?, bc.value with
    | some lastValue, some v =>
      some { bc with stack := bc.stack.dropLast, value := some (lastValue + v) }
    | _, _ => none

/-- `operate`: skip on a recorded error, coerce the operand, apply the closure.
The closure returns the new accumulator and the error it writes to `bc.err`. -/
def operate (bc : BigIntChain) (val : Operand)
    (operation : Int → Int → Int × Option ChainError) : Option BigIntChain :=
  if bc.err ≠ none then some bc
  else
    match convertToBigInt val with
    | .error err => some { bc with err := some err }
    | .ok bigInt =>
      match bc.value with
      | none => none
      | some a =>
        let r := operation a bigInt
        match r.2 with
        | some e => some { bc with value := some r.1, err := some e }
        | none => some { bc with value := some r.1 }

/-- `Add`. -/
def Add (bc : BigIntChain) (val : Operand) : Option BigIntChain :=
  bc.operate val (fun a b => (a + b, none))

/-- `Subtract`. -/
def Subtract (bc : BigIntChain) (val : Operand) : Option BigIntChain :=
  bc.operate val (fun a b => (a - b, none))

/-- `Multiply`. -/
def Multiply (bc : BigIntChain) (val : Operand) : Option BigIntChain :=
  bc.operate val (fun a b => (a * b, none))

/-- `Divide`. -/
def Divide (bc : BigIntChain) (val : Operand) : Option BigIntChain :=
  bc.operate val (fun a b =>
    if b = 0 then (a, some .divisionByZero) else (bigDiv a b, none))

/-- `Mod`. -/
def Mod (bc : BigIntChain) (val : Operand) : Option BigIntChain :=
  bc.operate val (fun a b =>
    if b = 0 then (a, some .moduloByZero) else (bigMod a b, none))

/-- `Pow`. -/
def Pow (bc : BigIntChain) (val : Operand) : Option BigIntChain :=
  bc.operate val (fun a b =>
    if asUint64 (bigInt64 b) > 64 then (a, some .exponentTooLarge) else (bigExp a b, none))

/-- `Abs`. -/
def Abs (bc : BigIntChain) : Option BigIntChain :=
  match bc.value with
  | none => none
  | some v => some { bc with value := some |v| }

/-- `Value`: the pair `(value, error)` that the method returns. -/
def Value (bc : BigIntChain) : Option Int × Option ChainError :=
  if bc.stack.length ≠ 0 then (none, some .mismatchedBrackets)
  else (bc.value, bc.err)

end BigIntChain

/-! ## `BigFloatChain`: construction, `operate`, `Divide`, `Value` -/

/-- The two operations of `math/big` on floats that the model takes as given,
since their results depend on parsing and rounding at 64 bits of precision:
`SetString` is `(*big.Float).SetString` on a decimal literal (`none` where Go
reports failure), and `Quo` is `(*big.Float).Quo` on operands that are neither
both zero nor both infinite. -/
structure BigFloatLib where
  SetString : List Char → Option BigFloat
  Quo : BigFloat → BigFloat → BigFloat

/-- `x.Cmp(big.NewFloat(0)) == 0`: the float is zero, of either sign. -/
def BigFloat.isZero : BigFloat → Bool
  | .fin m _ => decide (m = 0)
  | .inf _ => false

/-- The float is an infinity. -/
def BigFloat.isInf : BigFloat → Bool
  | .fin _ _ => false
  | .inf _ => true

/-- The conversion `float64(i)` of an integer of at most 64 bits: exact when the
magnitude has at most 53 bits, else rounded to 53 bits, ties to even. -/
def float64OfInt (i : Int) : NativeFloat :=
  let n := i.natAbs
  if n < 2 ^ 53 then .fin i 0
  else
    let sh := Nat.log2 n + 1 - 53
    let q := n / 2 ^ sh
    let r := n % 2 ^ sh
    let half := 2 ^ (sh - 1)
    let q' := if half < r ∨ (r = half ∧ q % 2 = 1) then q + 1 else q
    .fin (if i < 0 then -(q' : Int) else (q' : Int)) sh

/-- `big.NewFloat(x)`: the same number; `none` for the panic on NaN. -/
def bigNewFloat : NativeFloat → Option BigFloat
  | .fin m e => some (.fin m e)
  | .inf s => some (.inf s)
  | .nan => none

/-- The `string` case of `convertToBigFloat`. -/
def convertFloatString (lib : BigFloatLib) (v : List Char) : Except ChainError BigFloat :=
  let hex := hasPrefix v "0x".toList || hasPrefix v "0X".toList
  if hex then
    match bigSetString (trimPrefix (trimPrefix v "0x".toList) "0X".toList) 16 with
    | some bigInt => .ok (.fin bigInt 0)
    | none => .error .invalidHexFloatString
  else
    match lib.SetString v with
    | some bigFloat => .ok bigFloat
    | none => .error .invalidFloatString

/-- `convertToBigFloat`: the type switch over the operand; `none` where
`big.NewFloat` panics. -/
def convertToBigFloat (lib : BigFloatLib) : Operand → Option (Except ChainError BigFloat)
  | .bigFloat f => some (.ok f)
  | .bigInt v => some (.ok (.fin v 0))
  | .signed _ v => (bigNewFloat (float64OfInt (asInt64 v))).map .ok
  | .uint64 v => (bigNewFloat (float64OfInt (asUint64 v))).map .ok
  | .unsigned _ v => (bigNewFloat (float64OfInt (asUint64 v))).map .ok
  | .float _ f => (bigNewFloat f).map .ok
  | .str s => some (convertFloatString lib s.toList)
  | .other t => some (.error (.unsupportedType t))

/-- The float chain: accumulator (`none` for the nil pointer), stack, error. -/
structure BigFloatChain where
  value : Option BigFloat
  stack : List BigFloat
  err : Option ChainError
  deriving DecidableEq, Repr

/-- `NewBigFloatChain`; `none` where the coercion panics. -/
def NewBigFloatChain (lib : BigFloatLib) (val : Operand) : Option BigFloatChain :=
  match convertToBigFloat lib val with
  | none => none
  | some (.ok bigFloat) => some { value := some bigFloat, stack := [], err := none }
  | some (.error err) => some { value := none, stack := [], err := some err }

namespace BigFloatChain

/-- `operate` of the float chain. The closure returns the new accumulator and
the error it writes to `bfc.err`, or `none` where it panics. -/
def operate (bfc : BigFloatChain) (lib : BigFloatLib) (val : Operand)
    (operation : BigFloat → BigFloat → Option (BigFloat × Option ChainError)) :
    Option BigFloatChain :=
  if bfc.err ≠ none then some bfc
  else
    match convertToBigFloat lib val with
    | none => none
    | some (.error err) => some { bfc with err := some err }
    | some (.ok bigFloat) =>
      match bfc.value with
      | none => none
      | some a =>
        match operation a bigFloat with
        | none => none
        | some (v, some e) => some { bfc with value := some v, err := some e }
        | some (v, none) => some { bfc with value := some v }

/-- `Divide` of the float chain; `Quo` panics on two infinities. -/
def Divide (bfc : BigFloatChain) (lib : BigFloatLib) (val : Operand) : Option BigFloatChain :=
  bfc.operate lib val (fun a b =>
    if b.isZero then some (a, some .divisionByZero)
    else if a.isInf && b.isInf then none
    else some (lib.Quo a b, none))

/-- `Value` of the float chain. -/
def Value (bfc : BigFloatChain) : Option BigFloat × Option ChainError :=
  if bfc.stack.length ≠ 0 then (none, some .mismatchedBrackets)
  else (bfc.value, bfc.err)

end BigFloatChain

/-! ## Call sequences -/

/-- One method call of a fluent chain. -/
inductive Call where
  | add (val : Operand)
  | subtract (val : Operand)
  | multiply (val : Operand)
  | divide (val : Operand)
  | mod (val : Operand)
  | pow (val : Operand)
  | abs
  | begin_
  | end_
  deriving DecidableEq, Repr

/-- The effect of one call. -/
def Call.apply : Call → BigIntChain → Option BigIntChain
  | .add v, bc => bc.Add v
  | .subtract v, bc => bc.Subtract v
  | .multiply v, bc => bc.Multiply v
  | .divide v, bc => bc.Divide v
  | .mod v, bc => bc.Mod v
  | .pow v, bc => bc.Pow v
  | .abs, bc => bc.Abs
  | .begin_, bc => bc.Begin
  | .end_, bc => bc.End

/-- The effect of a sequence of calls, made left to right; a panic ends the run. -/
def run : List Call → BigIntChain → Option BigIntChain
  | [], bc => some bc
  | c :: cs, bc => (c.apply bc).bind (run cs)

/-- The three operations of `BigIntChain` that cannot fail on a coerced operand. -/
inductive ArithOp where
  | add | subtract | multiply
  deriving DecidableEq, Repr

/-- An arithmetic call together with the integer its operand stands for. -/
structure ArithCall where
  op : ArithOp
  val : Operand
  k : Int
  deriving DecidableEq, Repr

/-- The method call that an arithmetic call makes. -/
def ArithCall.call (c : ArithCall) : Call :=
  match c.op with
  | .add => .add c.val
  | .subtract => .subtract c.val
  | .multiply => .multiply c.val

/-- The arithmetic meaning of the call on an accumulator. -/
def ArithCall.eval (acc : Int) (c : ArithCall) : Int :=
  match c.op with
  | .add => acc + c.k
  | .subtract => acc - c.k
  | .multiply => acc * c.k

/-- Number of `Begin` calls in a sequence. -/
def countBegin (cs : List Call) : Nat := cs.count .begin_

/-- Number of `End` calls in a sequence. -/
def countEnd (cs : List Call) : Nat := cs.count .end_

/-- Bracket balance of a call sequence: no prefix holds more `End` than `Begin`
calls, and the totals agree. -/
def bracketBalanced (cs : List Call) : Prop :=
  (∀ n, n ≤ cs.length → countEnd (cs.take n) ≤ countBegin (cs.take n)) ∧
    countEnd cs = countBegin cs

instance (cs : List Call) : Decidable (bracketBalanced cs) := by
  unfold bracketBalanced; infer_instance

/-- Balance relative to `d` groups already open. -/
def balancedFrom (d : Nat) (cs : List Call) : Prop :=
  (∀ n, n ≤ cs.length → countEnd (cs.take n) ≤ d + countBegin (cs.take n)) ∧
    countEnd cs = d + countBegin cs

/-- No `End` of the sequence meets an empty stack, `d` groups being open at the start. -/
def noUnderflow : Nat → List Call → Bool
  | _, [] => true
  | d, .begin_ :: cs => noUnderflow (d + 1) cs
  | 0, .end_ :: _ => false
  | d + 1, .end_ :: cs => noUnderflow d cs
  | d, _ :: cs => noUnderflow d cs

/-- The closure does not report `mismatched brackets`, and hands back the
accumulator it was given whenever it reports an error. -/
def ClosureOk (operation : Int → Int → Int × Option ChainError) : Prop :=
  ∀ a b e, (operation a b).2 = some e → e ≠ .mismatchedBrackets ∧ (operation a b).1 = a

/-- The call is one of the six that go through `operate`. -/
def Call.IsOperate : Call → Prop
  | .abs => False
  | .begin_ => False
  | .end_ => False
  | _ => True

/-- A call of a grouped sum: `Begin`, `End`, or `Add` with an operand and the
integer that operand stands for. -/
inductive GroupCall where
  | begin_
  | end_
  | add (val : Operand) (k : Int)
  deriving DecidableEq, Repr

/-- The method call that a grouped-sum call makes. -/
def GroupCall.call : GroupCall → Call
  | .begin_ => .begin_
  | .end_ => .end_
  | .add v _ => .add v

/-- The integer a grouped-sum call adds: `k` for `Add(k)`, nothing for a bracket. -/
def GroupCall.amount : GroupCall → Int
  | .add _ k => k
  | _ => 0

/-- The operand of an `Add` coerces to the integer recorded with it. -/
def GroupCall.coerces : GroupCall → Prop
  | .add v k => convertToBigInt v = .ok k
  | _ => True

instance (c : GroupCall) : Decidable c.coerces := by
  cases c <;> unfold GroupCall.coerces <;> infer_instance

/-- The decimal string of an integer, as `strconv.FormatInt(n, 10)` writes it: a
minus sign for a negative number, then the decimal digits of the magnitude. -/
def decimalString (n : Int) : String :=
  if n < 0 then "-" ++ Nat.repr n.natAbs else Nat.repr n.natAbs

/-! ## Sanity checks against the repository's tests -/

theorem test_add : (run [.add (.signed .int 20)] (NewBigIntChain (.signed .int 10))).map BigIntChain.Value
    = some (some 30, none) := by decide
theorem test_brackets : (run [.begin_, .add (.signed .int 10), .end_, .multiply (.signed .int 2)]
    (NewBigIntChain (.signed .int 10))).map BigIntChain.Value = some (some 40, none) := by decide
theorem test_convert_hex : convertToBigInt (.str "0x10") = .ok 16 := by decide
theorem test_convert_invalid : convertToBigInt (.str "invalid") = .error .invalidNumericString := by decide
theorem test_convert_two_pow_64 : convertToBigInt (.str "18446744073709551616") = .ok 18446744073709551616 := by decide
theorem test_div_negative : bigDiv (-7) 2 = -4 := by decide
theorem test_mod_negative : bigMod (-7) 2 = 1 := by decide

theorem test_balanced : bracketBalanced [.begin_, .add (.signed .int 10), .end_] := by decide
theorem test_unbalanced_open : ¬ bracketBalanced [.begin_, .add (.signed .int 10)] := by decide
theorem test_unbalanced_close : ¬ bracketBalanced [.end_, .begin_] := by decide

/-! ## Euclidean division in `math/big` -/

theorem tmod_neg_left (x y : Int) : Int.tmod (-x) y = -Int.tmod x y := by
  rw [Int.tmod_def, Int.tmod_def, Int.neg_tdiv]; ring

theorem tmod_bounds (x y : Int) (hy : y ≠ 0) :
    (0 ≤ x → 0 ≤ Int.tmod x y ∧ Int.tmod x y < |y|) ∧
    (x < 0 → -|y| < Int.tmod x y ∧ Int.tmod x y ≤ 0) := by
  have key : ∀ (m : Nat) (y : Int), y ≠ 0 → 0 ≤ Int.tmod m y ∧ Int.tmod m y < |y| := by
    intro m y hy
    refine ⟨Int.tmod_nonneg _ (Int.ofNat_nonneg m), ?_⟩
    rcases lt_or_gt_of_ne hy with h | h
    · have := Int.tmod_lt_of_pos (m : Int) (neg_pos.mpr h)
      rw [Int.tmod_neg] at this
      rw [abs_of_neg h]; exact this
    · rw [abs_of_pos h]; exact Int.tmod_lt_of_pos _ h
  constructor
  · intro hx
    obtain ⟨m, rfl⟩ := Int.eq_ofNat_of_zero_le hx
    exact key m y hy
  · intro hx
    obtain ⟨m, hm⟩ := Int.eq_ofNat_of_zero_le (show 0 ≤ -x by omega)
    have hx' : x = -(m : Int) := by omega
    subst hx'
    have := key m y hy
    rw [tmod_neg_left]
    omega

theorem bigMod_add_bigDiv (x y : Int) : bigMod x y + y * bigDiv x y = x := by
  have h := Int.tmod_add_tdiv x y
  unfold bigMod bigDiv bigQuoRem
  simp only
  split_ifs <;> linarith

theorem bigMod_bounds (x y : Int) (hy : y ≠ 0) : 0 ≤ bigMod x y ∧ bigMod x y < |y| := by
  have h := tmod_bounds x y hy
  unfold bigMod bigQuoRem
  simp only
  rcases lt_or_le x 0 with hx | hx
  · have h2 := h.2 hx
    split_ifs with h1 h3
    · rw [abs_of_neg h3] at h2 ⊢; omega
    · have : 0 < y := by omega
      rw [abs_of_pos this] at h2 ⊢; omega
    · have : Int.tmod x y = 0 := by omega
      rw [this]; exact ⟨le_refl _, abs_pos.mpr hy⟩
  · have h2 := h.1 hx
    split_ifs with h1 h3
    · omega
    · omega
    · exact h2

theorem euclid_unique (x y q r : Int) (hy : y ≠ 0) (h : r + y * q = x) (h0 : 0 ≤ r)
    (h1 : r < |y|) : q = x / y ∧ r = x % y := by
  rcases lt_or_gt_of_ne hy with hneg | hpos
  · rw [abs_of_neg hneg] at h1
    have := (Int.ediv_emod_unique (a := x) (b := -y) (r := r) (q := -q) (by omega)).mpr
      ⟨by rw [← h]; ring, h0, h1⟩
    rw [Int.ediv_neg, Int.emod_neg] at this
    omega
  · rw [abs_of_pos hpos] at h1
    have := (Int.ediv_emod_unique (a := x) (b := y) (r := r) (q := q) hpos).mpr ⟨h, h0, h1⟩
    omega

theorem bigDiv_eq_ediv (x y : Int) (hy : y ≠ 0) : bigDiv x y = x / y :=
  (euclid_unique x y _ _ hy (bigMod_add_bigDiv x y) (bigMod_bounds x y hy).1
    (bigMod_bounds x y hy).2).1

theorem bigMod_eq_emod (x y : Int) (hy : y ≠ 0) : bigMod x y = x % y :=
  (euclid_unique x y _ _ hy (bigMod_add_bigDiv x y) (bigMod_bounds x y hy).1
    (bigMod_bounds x y hy).2).2

theorem bigDiv_eq_tdiv_of_nonneg (x y : Int) (hx : 0 ≤ x) : bigDiv x y = Int.tdiv x y := by
  have := Int.tmod_nonneg y hx
  unfold bigDiv bigQuoRem
  simp only
  rw [if_neg (by omega)]

theorem bigMod_eq_tmod_of_nonneg (x y : Int) (hx : 0 ≤ x) : bigMod x y = Int.tmod x y := by
  have := Int.tmod_nonneg y hx
  unfold bigMod bigQuoRem
  simp only
  rw [if_neg (by omega)]

/-! ## Single calls -/

theorem operate_of_err (bc : BigIntChain) (val : Operand)
    (operation : Int → Int → Int × Option ChainError) (e : ChainError)
    (he : bc.err = some e) : bc.operate val operation = some bc := by
  simp [BigIntChain.operate, he]

theorem operate_of_ok (bc : BigIntChain) (val : Operand)
    (operation : Int → Int → Int × Option ChainError) (a b : Int)
    (he : bc.err = none) (hv : bc.value = some a) (hc : convertToBigInt val = .ok b)
    (hop : (operation a b).2 = none) :
    bc.operate val operation = some { bc with value := some (operation a b).1 } := by
  simp [BigIntChain.operate, he, hv, hc, hop]

theorem operate_of_fail (bc : BigIntChain) (val : Operand)
    (operation : Int → Int → Int × Option ChainError) (a b : Int) (e : ChainError)
    (he : bc.err = none) (hv : bc.value = some a) (hc : convertToBigInt val = .ok b)
    (hop : (operation a b).2 = some e) :
    bc.operate val operation = some { bc with value := some (operation a b).1, err := some e } := by
  simp [BigIntChain.operate, he, hv, hc, hop]

theorem operate_of_coercion_error (bc : BigIntChain) (val : Operand)
    (operation : Int → Int → Int × Option ChainError) (e : ChainError)
    (he : bc.err = none) (hc : convertToBigInt val = .error e) :
    bc.operate val operation = some { bc with err := some e } := by
  simp [BigIntChain.operate, he, hc]

theorem End_of_concat (bc : BigIntChain) (L : List Int) (b a : Int)
    (hs : bc.stack = L ++ [b]) (hv : bc.value = some a) :
    bc.End = some { bc with stack := L, value := some (b + a) } := by
  simp [BigIntChain.End, hs, hv]

theorem End_of_nil (bc : BigIntChain) (hs : bc.stack = []) :
    bc.End = some { bc with err := some .mismatchedBrackets } := by
  simp [BigIntChain.End, hs]

/-! ## Division and modulo -/

/-- C3, as the code has it: on an error-free chain with accumulator `a`, `Divide`
with an operand that coerces to `b ≠ 0` stores the Euclidean quotient `q`, the
one integer with `0 ≤ a - q * b < |b|`; stack and error are untouched, and `q`
is `a / b` rounded toward zero whenever `a` is non-negative. -/
theorem divide_euclidean (bc : BigIntChain) (val : Operand) (a b : Int)
    (he : bc.err = none) (hv : bc.value = some a)
    (hc : convertToBigInt val = .ok b) (hb : b ≠ 0) :
    ∃ q : Int, bc.Divide val = some { value := some q, stack := bc.stack, err := none } ∧
      q = a / b ∧ 0 ≤ a - q * b ∧ a - q * b < |b| ∧ (0 ≤ a → q = Int.tdiv a b) := by
  refine ⟨bigDiv a b, ?_, bigDiv_eq_ediv a b hb, ?_, ?_, bigDiv_eq_tdiv_of_nonneg a b⟩
  · unfold BigIntChain.Divide
    rw [operate_of_ok bc val _ a b he hv hc (by simp [hb])]
    simp [hb, he]
  · have h1 := bigMod_add_bigDiv a b
    have h2 := (bigMod_bounds a b hb).1
    linarith
  · have h1 := bigMod_add_bigDiv a b
    have h2 := (bigMod_bounds a b hb).2
    linarith

theorem divide_euclidean_witness :
    ∃ q : Int, BigIntChain.Divide ⟨some 20, [], none⟩ (.signed .int 4)
        = some { value := some q, stack := [], err := none } ∧
      q = 20 / 4 ∧ 0 ≤ 20 - q * 4 ∧ 20 - q * 4 < |(4 : Int)| ∧ (0 ≤ (20 : Int) → q = Int.tdiv 20 4) :=
  divide_euclidean ⟨some 20, [], none⟩ (.signed .int 4) 20 4 rfl rfl (by decide) (by decide)

/-- C3 fails as stated: with accumulator `-7`, `Divide(2)` stores `-4`, while
`-7 / 2` rounded toward zero is `-3`. -/
theorem divide_not_truncating :
    BigIntChain.Divide ⟨some (-7), [], none⟩ (.signed .int 2) = some ⟨some (-4), [], none⟩ ∧
      Int.tdiv (-7) 2 = -3 := by
  decide

/-- C4, as the code has it: on an error-free chain with accumulator `a`, `Mod`
with an operand that coerces to `b ≠ 0` stores the Euclidean remainder `r`, with
`0 ≤ r < |b|` and `r = a - b * (a / b)` for the Euclidean quotient; stack and
error are untouched, and `r` is the remainder of truncating division whenever
`a` is non-negative. -/
theorem mod_euclidean (bc : BigIntChain) (val : Operand) (a b : Int)
    (he : bc.err = none) (hv : bc.value = some a)
    (hc : convertToBigInt val = .ok b) (hb : b ≠ 0) :
    ∃ r : Int, bc.Mod val = some { value := some r, stack := bc.stack, err := none } ∧
      r = a - b * (a / b) ∧ 0 ≤ r ∧ r < |b| ∧ (0 ≤ a → r = a - b * Int.tdiv a b) := by
  refine ⟨bigMod a b, ?_, ?_, (bigMod_bounds a b hb).1, (bigMod_bounds a b hb).2, ?_⟩
  · unfold BigIntChain.Mod
    rw [operate_of_ok bc val _ a b he hv hc (by simp [hb])]
    simp [hb, he]
  · rw [bigMod_eq_emod a b hb, Int.emod_def]
  · intro ha
    rw [bigMod_eq_tmod_of_nonneg a b ha, Int.tmod_def]

theorem mod_euclidean_witness :
    ∃ r : Int, BigIntChain.Mod ⟨some 20, [], none⟩ (.signed .int 6)
        = some { value := some r, stack := [], err := none } ∧
      r = 20 - 6 * (20 / 6) ∧ 0 ≤ r ∧ r < |(6 : Int)| ∧
      (0 ≤ (20 : Int) → r = 20 - 6 * Int.tdiv 20 6) :=
  mod_euclidean ⟨some 20, [], none⟩ (.signed .int 6) 20 6 rfl rfl (by decide) (by decide)

/-- C4 fails as stated: with accumulator `-7`, `Mod(2)` stores `1`, while the
remainder of truncating division, `-7 - 2 * trunc(-7 / 2)`, is `-1`. -/
theorem mod_not_truncating :
    BigIntChain.Mod ⟨some (-7), [], none⟩ (.signed .int 2) = some ⟨some 1, [], none⟩ ∧
      (-7 : Int) - 2 * Int.tdiv (-7) 2 = -1 := by
  decide

/-- C5: on an error-free chain with an empty stack and any accumulator, an
operand that coerces to zero makes `Divide` record `division by zero` and `Mod`
record `modulo by zero`, and `Value` then returns that error. -/
theorem divide_mod_by_zero (bc : BigIntChain) (val : Operand) (a : Int)
    (he : bc.err = none) (hs : bc.stack = []) (hv : bc.value = some a)
    (hc : convertToBigInt val = .ok 0) :
    (∃ bc', bc.Divide val = some bc' ∧ bc'.err = some .divisionByZero ∧
        bc'.Value.2 = some .divisionByZero) ∧
      (∃ bc', bc.Mod val = some bc' ∧ bc'.err = some .moduloByZero ∧
        bc'.Value.2 = some .moduloByZero) := by
  constructor
  · refine ⟨_, operate_of_fail bc val _ a 0 .divisionByZero he hv hc (by simp), rfl, ?_⟩
    simp [BigIntChain.Value, hs]
  · refine ⟨_, operate_of_fail bc val _ a 0 .moduloByZero he hv hc (by simp), rfl, ?_⟩
    simp [BigIntChain.Value, hs]

theorem divide_mod_by_zero_witness :
    (∃ bc', (NewBigIntChain (.signed .int 20)).Divide (.signed .int 0) = some bc' ∧
        bc'.err = some .divisionByZero ∧ bc'.Value.2 = some .divisionByZero) ∧
      (∃ bc', (NewBigIntChain (.signed .int 20)).Mod (.signed .int 0) = some bc' ∧
        bc'.err = some .moduloByZero ∧ bc'.Value.2 = some .moduloByZero) :=
  divide_mod_by_zero (NewBigIntChain (.signed .int 20)) (.signed .int 0) 20 rfl rfl
    (by decide) (by decide)

/-! ## Grouping -/

/-- C6: on an error-free chain with accumulator `v` and any stack, the calls
`Begin().Add(k).End()` leave the accumulator at `v + k`, the stack as it was,
and no error. -/
theorem grouping_algebra (bc : BigIntChain) (val : Operand) (v k : Int)
    (he : bc.err = none) (hv : bc.value = some v) (hc : convertToBigInt val = .ok k) :
    run [.begin_, .add val, .end_] bc
      = some { value := some (v + k), stack := bc.stack, err := none } := by
  simp [run, Call.apply, BigIntChain.Begin, BigIntChain.Add, BigIntChain.operate,
    BigIntChain.End, hv, he, hc]

theorem grouping_algebra_witness :
    run [.begin_, .add (.signed .int 10), .end_] (NewBigIntChain (.signed .int 10))
      = some { value := some (10 + 10), stack := (NewBigIntChain (.signed .int 10)).stack,
               err := none } :=
  grouping_algebra (NewBigIntChain (.signed .int 10)) (.signed .int 10) 10 10 rfl rfl
    (by decide)

/-! ## What one call does to a chain whose accumulator is present -/

theorem convertString_error_ne (s : List Char) (e : ChainError)
    (h : convertString s = .error e) : e = .invalidNumericString := by
  unfold convertString at h
  simp only at h
  split at h
  · cases h
  · cases h; rfl

theorem convert_error_ne_mismatched (val : Operand) (e : ChainError)
    (h : convertToBigInt val = .error e) : e ≠ .mismatchedBrackets := by
  cases val with
  | str s =>
    have := convertString_error_ne s.toList e h
    subst this; decide
  | other t => cases h; simp
  | _ => cases h

theorem operate_spec (bc : BigIntChain) (val : Operand)
    (operation : Int → Int → Int × Option ChainError) (a : Int)
    (hv : bc.value = some a) (hop : ClosureOk operation) :
    ∃ bc' a', bc.operate val operation = some bc' ∧ bc'.value = some a' ∧
      bc'.stack = bc.stack ∧ (bc.err ≠ none → bc' = bc) ∧
      (bc.err = none → bc'.err ≠ some .mismatchedBrackets) ∧
      (bc.err = none → bc'.err ≠ none → bc'.value = bc.value) := by
  cases he : bc.err with
  | some e =>
    exact ⟨bc, a, operate_of_err bc val operation e he, hv, rfl, fun _ => rfl,
      fun h => (by cases h), fun h => (by cases h)⟩
  | none =>
    cases hc : convertToBigInt val with
    | error e' =>
      refine ⟨_, a, operate_of_coercion_error bc val operation e' he hc, hv, rfl,
        fun h => absurd rfl h, fun _ => ?_, fun _ _ => rfl⟩
      have := convert_error_ne_mismatched val e' hc
      simpa using this
    | ok b =>
      cases hr : (operation a b).2 with
      | none =>
        refine ⟨_, _, operate_of_ok bc val operation a b he hv hc hr, rfl, rfl,
          fun h => absurd rfl h, fun _ => ?_, fun _ h => ?_⟩
        · simp [he]
        · exact absurd he h
      | some e =>
        have := hop a b e hr
        refine ⟨_, _, operate_of_fail bc val operation a b e he hv hc hr, rfl, rfl,
          fun h => absurd rfl h, fun _ => ?_, fun _ _ => ?_⟩
        · simpa using this.1
        · simp [this.2, hv]

theorem closureOk_add : ClosureOk (fun a b => (a + b, none)) := by
  intro a b e h; simp at h

theorem closureOk_subtract : ClosureOk (fun a b => (a - b, none)) := by
  intro a b e h; simp at h

theorem closureOk_multiply : ClosureOk (fun a b => (a * b, none)) := by
  intro a b e h; simp at h

theorem closureOk_divide : ClosureOk (fun a b =>
    if b = 0 then (a, some ChainError.divisionByZero) else (bigDiv a b, none)) := by
  intro a b e h
  by_cases hb : b = 0
  · simp [hb] at h ⊢; subst h; decide
  · simp [hb] at h

theorem closureOk_mod : ClosureOk (fun a b =>
    if b = 0 then (a, some ChainError.moduloByZero) else (bigMod a b, none)) := by
  intro a b e h
  by_cases hb : b = 0
  · simp [hb] at h ⊢; subst h; decide
  · simp [hb] at h

theorem closureOk_pow : ClosureOk (fun a b =>
    if asUint64 (bigInt64 b) > 64 then (a, some ChainError.exponentTooLarge)
    else (bigExp a b, none)) := by
  intro a b e h
  by_cases hb : asUint64 (bigInt64 b) > 64
  · simp [hb] at h ⊢; subst h; decide
  · simp [hb] at h

theorem apply_operate_spec (c : Call) (hc : c.IsOperate) (bc : BigIntChain) (a : Int)
    (hv : bc.value = some a) :
    ∃ bc' a', c.apply bc = some bc' ∧ bc'.value = some a' ∧
      bc'.stack = bc.stack ∧ (bc.err ≠ none → bc' = bc) ∧
      (bc.err = none → bc'.err ≠ some .mismatchedBrackets) ∧
      (bc.err = none → bc'.err ≠ none → bc'.value = bc.value) := by
  cases c with
  | add v => exact operate_spec bc v _ a hv closureOk_add
  | subtract v => exact operate_spec bc v _ a hv closureOk_subtract
  | multiply v => exact operate_spec bc v _ a hv closureOk_multiply
  | divide v => exact operate_spec bc v _ a hv closureOk_divide
  | mod v => exact operate_spec bc v _ a hv closureOk_mod
  | pow v => exact operate_spec bc v _ a hv closureOk_pow
  | abs => exact absurd hc (by simp [Call.IsOperate])
  | begin_ => exact absurd hc (by simp [Call.IsOperate])
  | end_ => exact absurd hc (by simp [Call.IsOperate])

theorem Abs_of_value (bc : BigIntChain) (a : Int) (hv : bc.value = some a) :
    bc.Abs = some { bc with value := some |a| } := by
  simp [BigIntChain.Abs, hv]

theorem Begin_of_value (bc : BigIntChain) (a : Int) (hv : bc.value = some a) :
    bc.Begin = some { bc with stack := bc.stack ++ [a], value := some 0 } := by
  simp [BigIntChain.Begin, hv]

theorem Call.four_cases (c : Call) : c.IsOperate ∨ c = .abs ∨ c = .begin_ ∨ c = .end_ := by
  cases c <;> simp [Call.IsOperate]

theorem apply_abs (bc : BigIntChain) (a : Int) (hv : bc.value = some a) :
    Call.abs.apply bc = some { bc with value := some |a| } := Abs_of_value bc a hv

theorem apply_begin (bc : BigIntChain) (a : Int) (hv : bc.value = some a) :
    Call.begin_.apply bc = some { bc with stack := bc.stack ++ [a], value := some 0 } :=
  Begin_of_value bc a hv

theorem noUnderflow_cons_operate (c : Call) (hc : c.IsOperate) (d : Nat) (cs : List Call) :
    noUnderflow d (c :: cs) = noUnderflow d cs := by
  cases c <;> simp [Call.IsOperate] at hc <;> simp [noUnderflow]

theorem noUnderflow_cons_abs (d : Nat) (cs : List Call) :
    noUnderflow d (.abs :: cs) = noUnderflow d cs := by
  simp [noUnderflow]

/-! ## The sticky error -/

theorem sticky_error_run (cs : List Call) : ∀ (bc : BigIntChain) (a : Int) (e : ChainError),
    bc.value = some a → bc.err = some e → noUnderflow bc.stack.length cs = true →
    ∃ bc', run cs bc = some bc' ∧ bc'.err = some e := by
  induction cs with
  | nil => intro bc a e _ he _; exact ⟨bc, rfl, he⟩
  | cons c cs ih =>
    intro bc a e hv he hn
    rcases c.four_cases with hc | rfl | rfl | rfl
    · obtain ⟨bc1, a1, h1, hv1, _, hsame, _, _⟩ := apply_operate_spec c hc bc a hv
      have hbc : bc1 = bc := hsame (by simp [he])
      subst hbc
      rw [noUnderflow_cons_operate c hc] at hn
      obtain ⟨bc', hr, he'⟩ := ih bc1 a e hv he hn
      exact ⟨bc', by simp [run, h1, hr], he'⟩
    · rw [noUnderflow_cons_abs] at hn
      obtain ⟨bc', hr, he'⟩ := ih { bc with value := some |a| } |a| e rfl he hn
      exact ⟨bc', by simp [run, apply_abs bc a hv, hr], he'⟩
    · have hn' : noUnderflow (bc.stack ++ [a]).length cs = true := by
        simpa [noUnderflow] using hn
      obtain ⟨bc', hr, he'⟩ :=
        ih { bc with stack := bc.stack ++ [a], value := some 0 } 0 e rfl he hn'
      exact ⟨bc', by simp [run, apply_begin bc a hv, hr], he'⟩
    · rcases List.eq_nil_or_concat bc.stack with hs | ⟨L, b, hs⟩
      · simp [hs, noUnderflow] at hn
      · rw [List.concat_eq_append] at hs
        have hn' : noUnderflow L.length cs = true := by
          simpa [hs, noUnderflow] using hn
        obtain ⟨bc', hr, he'⟩ :=
          ih { bc with stack := L, value := some (b + a) } (b + a) e rfl he hn'
        exact ⟨bc', by simp [run, Call.apply, End_of_concat bc L b a hs hv, hr], he'⟩

/-- C1, as the code has it: once a chain with a present accumulator holds an
error `e`, every sequence of calls in which no `End` meets an empty stack runs
to the end and leaves `e` recorded; `Value` then returns `e` when the stack is
empty and `mismatched brackets` when it is not. -/
theorem sticky_error (bc : BigIntChain) (a : Int) (e : ChainError) (cs : List Call)
    (hv : bc.value = some a) (he : bc.err = some e)
    (hn : noUnderflow bc.stack.length cs = true) :
    ∃ bc', run cs bc = some bc' ∧ bc'.err = some e ∧
      (bc'.stack = [] → bc'.Value = (bc'.value, some e)) ∧
      (bc'.stack ≠ [] → bc'.Value = (none, some .mismatchedBrackets)) := by
  obtain ⟨bc', hr, he'⟩ := sticky_error_run cs bc a e hv he hn
  refine ⟨bc', hr, he', ?_, ?_⟩
  · intro hs; simp [BigIntChain.Value, hs, he']
  · intro hs; simp [BigIntChain.Value, hs]

theorem sticky_error_witness :
    ∃ bc', run [.add (.signed .int 1), .begin_, .abs, .end_, .pow (.str "x")]
        ⟨some 20, [], some .divisionByZero⟩ = some bc' ∧
      bc'.err = some .divisionByZero ∧
      (bc'.stack = [] → bc'.Value = (bc'.value, some .divisionByZero)) ∧
      (bc'.stack ≠ [] → bc'.Value = (none, some .mismatchedBrackets)) :=
  sticky_error ⟨some 20, [], some .divisionByZero⟩ 20 .divisionByZero
    [.add (.signed .int 1), .begin_, .abs, .end_, .pow (.str "x")] rfl rfl (by decide)

/-- C1 fails as stated: after `NewBigIntChain(20).Divide(0)` has recorded
`division by zero`, `End()` replaces that error by `mismatched brackets`, which
`Value()` then returns; and after `Begin()` instead, the error is still recorded
but `Value()` returns `mismatched brackets`. -/
theorem sticky_error_overwritten :
    (run [.divide (.signed .int 0)] (NewBigIntChain (.signed .int 20))).map (·.err)
        = some (some .divisionByZero) ∧
      (run [.divide (.signed .int 0), .end_] (NewBigIntChain (.signed .int 20))).map (·.err)
        = some (some .mismatchedBrackets) ∧
      (run [.divide (.signed .int 0), .end_] (NewBigIntChain (.signed .int 20))).map
        BigIntChain.Value = some (some 20, some .mismatchedBrackets) ∧
      (run [.divide (.signed .int 0), .begin_] (NewBigIntChain (.signed .int 20))).map (·.err)
        = some (some .divisionByZero) ∧
      (run [.divide (.signed .int 0), .begin_] (NewBigIntChain (.signed .int 20))).map
        BigIntChain.Value = some (none, some .mismatchedBrackets) := by
  decide

/-! ## Bracket balance -/

theorem forall_take_cons {P : List Call → Prop} (c : Call) (cs : List Call) :
    (∀ n, n ≤ (c :: cs).length → P ((c :: cs).take n)) ↔
      P [] ∧ ∀ n, n ≤ cs.length → P (c :: cs.take n) := by
  constructor
  · intro h
    refine ⟨h 0 (Nat.zero_le _), fun n hn => ?_⟩
    have := h (n + 1) (by simpa using hn)
    simpa using this
  · rintro ⟨h0, h1⟩ n hn
    cases n with
    | zero => simpa using h0
    | succ m => simpa using h1 m (by simpa using hn)

theorem count_cons_operate (c : Call) (hc : c.IsOperate) (cs : List Call) :
    countBegin (c :: cs) = countBegin cs ∧ countEnd (c :: cs) = countEnd cs := by
  cases c <;> simp [Call.IsOperate] at hc <;> simp [countBegin, countEnd, List.count_cons]

theorem count_cons_abs (cs : List Call) :
    countBegin (.abs :: cs) = countBegin cs ∧ countEnd (.abs :: cs) = countEnd cs := by
  simp [countBegin, countEnd, List.count_cons]

theorem count_cons_begin (cs : List Call) :
    countBegin (.begin_ :: cs) = countBegin cs + 1 ∧ countEnd (.begin_ :: cs) = countEnd cs := by
  simp [countBegin, countEnd, List.count_cons]

theorem count_cons_end (cs : List Call) :
    countBegin (.end_ :: cs) = countBegin cs ∧ countEnd (.end_ :: cs) = countEnd cs + 1 := by
  simp [countBegin, countEnd, List.count_cons]

theorem balancedFrom_nil (d : Nat) : balancedFrom d [] ↔ d = 0 := by
  simp [balancedFrom, countBegin, countEnd]
  omega

theorem balancedFrom_cons_same (c : Call) (cs : List Call) (d : Nat)
    (h : ∀ l, countBegin (c :: l) = countBegin l ∧ countEnd (c :: l) = countEnd l) :
    balancedFrom d (c :: cs) ↔ balancedFrom d cs := by
  unfold balancedFrom
  rw [forall_take_cons (P := fun p => countEnd p ≤ d + countBegin p)]
  simp only [(h _).1, (h _).2]
  simp [countBegin, countEnd]

theorem balancedFrom_cons_begin (cs : List Call) (d : Nat) :
    balancedFrom d (.begin_ :: cs) ↔ balancedFrom (d + 1) cs := by
  unfold balancedFrom
  rw [forall_take_cons (P := fun p => countEnd p ≤ d + countBegin p)]
  simp only [(count_cons_begin _).1, (count_cons_begin _).2]
  simp [countBegin, countEnd]
  constructor
  · rintro ⟨h1, h2⟩; exact ⟨fun n hn => by have := h1 n hn; omega, by omega⟩
  · rintro ⟨h1, h2⟩; exact ⟨fun n hn => by have := h1 n hn; omega, by omega⟩

theorem balancedFrom_cons_end_zero (cs : List Call) : ¬ balancedFrom 0 (.end_ :: cs) := by
  unfold balancedFrom
  rw [forall_take_cons (P := fun p => countEnd p ≤ 0 + countBegin p)]
  rintro ⟨⟨_, h1⟩, _⟩
  have := h1 0 (Nat.zero_le _)
  simp [countBegin, countEnd, List.count_cons] at this

theorem balancedFrom_cons_end_succ (cs : List Call) (d : Nat) :
    balancedFrom (d + 1) (.end_ :: cs) ↔ balancedFrom d cs := by
  unfold balancedFrom
  rw [forall_take_cons (P := fun p => countEnd p ≤ d + 1 + countBegin p)]
  simp only [(count_cons_end _).1, (count_cons_end _).2]
  simp [countBegin, countEnd]
  constructor
  · rintro ⟨h1, h2⟩; exact ⟨fun n hn => by have := h1 n hn; omega, by omega⟩
  · rintro ⟨h1, h2⟩; exact ⟨fun n hn => by have := h1 n hn; omega, by omega⟩

theorem bracketBalanced_iff (cs : List Call) : bracketBalanced cs ↔ balancedFrom 0 cs := by
  simp [bracketBalanced, balancedFrom]

theorem mismatched_run (cs : List Call) : ∀ (bc : BigIntChain) (a : Int),
    bc.value = some a →
    ∃ bc', run cs bc = some bc' ∧
      (bc'.Value.2 = some .mismatchedBrackets ↔
        (bc.err = some .mismatchedBrackets ∨ ¬ balancedFrom bc.stack.length cs)) := by
  induction cs with
  | nil =>
    intro bc a _
    refine ⟨bc, rfl, ?_⟩
    rw [balancedFrom_nil]
    by_cases hs : bc.stack.length = 0
    · simp [BigIntChain.Value, hs]
    · simp [BigIntChain.Value, hs]
  | cons c cs ih =>
    intro bc a hv
    rcases c.four_cases with hc | rfl | rfl | rfl
    · obtain ⟨bc1, a1, h1, hv1, hst, hsame, hmm, _⟩ := apply_operate_spec c hc bc a hv
      obtain ⟨bc', hr, hiff⟩ := ih bc1 a1 hv1
      refine ⟨bc', by simp [run, h1, hr], ?_⟩
      rw [hiff, hst, balancedFrom_cons_same c cs _ (count_cons_operate c hc)]
      have herr : bc1.err = some .mismatchedBrackets ↔ bc.err = some .mismatchedBrackets := by
        cases he : bc.err with
        | none => simpa [he] using hmm he
        | some e => rw [hsame (by simp [he]), he]
      rw [herr]
    · obtain ⟨bc', hr, hiff⟩ := ih { bc with value := some |a| } |a| rfl
      refine ⟨bc', by simp [run, apply_abs bc a hv, hr], ?_⟩
      rw [hiff, balancedFrom_cons_same .abs cs _ count_cons_abs]
    · obtain ⟨bc', hr, hiff⟩ :=
        ih { bc with stack := bc.stack ++ [a], value := some 0 } 0 rfl
      refine ⟨bc', by simp [run, apply_begin bc a hv, hr], ?_⟩
      rw [hiff, balancedFrom_cons_begin]
      simp
    · rcases List.eq_nil_or_concat bc.stack with hs | ⟨L, b, hs⟩
      · obtain ⟨bc', hr, hiff⟩ :=
          ih { bc with err := some .mismatchedBrackets } a hv
        refine ⟨bc', by simp [run, Call.apply, End_of_nil bc hs, hr], ?_⟩
        rw [hiff]
        have := balancedFrom_cons_end_zero cs
        simp [hs, this]
      · rw [List.concat_eq_append] at hs
        obtain ⟨bc', hr, hiff⟩ :=
          ih { bc with stack := L, value := some (b + a) } (b + a) rfl
        refine ⟨bc', by simp [run, Call.apply, End_of_concat bc L b a hs hv, hr], ?_⟩
        rw [hiff, hs]
        simp [balancedFrom_cons_end_succ]

/-- C2: on a successfully constructed chain every sequence of calls runs to the
end, and `Value` returns `mismatched brackets` exactly when the `Begin`/`End`
calls of the sequence are not bracket-balanced; so `Value` returns no error only
for a balanced sequence. -/
theorem balanced_grouping (val : Operand) (v : Int) (cs : List Call)
    (h : convertToBigInt val = .ok v) :
    ∃ bc', run cs (NewBigIntChain val) = some bc' ∧
      (bc'.Value.2 = some .mismatchedBrackets ↔ ¬ bracketBalanced cs) ∧
      (bc'.Value.2 = none → bracketBalanced cs) := by
  have hnew : NewBigIntChain val = ⟨some v, [], none⟩ := by simp [NewBigIntChain, h]
  obtain ⟨bc', hr, hiff⟩ := mismatched_run cs (NewBigIntChain val) v (by rw [hnew])
  have hiff' : bc'.Value.2 = some .mismatchedBrackets ↔ ¬ bracketBalanced cs := by
    rw [hiff, bracketBalanced_iff, hnew]; simp
  refine ⟨bc', hr, hiff', fun hnone => ?_⟩
  by_contra hb
  have := hiff'.mpr hb
  rw [hnone] at this
  cases this

theorem balanced_grouping_witness :
    ∃ bc', run [.begin_, .add (.signed .int 10)] (NewBigIntChain (.signed .int 10)) = some bc' ∧
      (bc'.Value.2 = some .mismatchedBrackets ↔
        ¬ bracketBalanced [.begin_, .add (.signed .int 10)]) ∧
      (bc'.Value.2 = none → bracketBalanced [.begin_, .add (.signed .int 10)]) :=
  balanced_grouping (.signed .int 10) 10 [.begin_, .add (.signed .int 10)] (by decide)

/-! ## Call order -/

theorem arith_run (ops : List ArithCall) : ∀ (v : Int),
    (∀ c ∈ ops, convertToBigInt c.val = .ok c.k) →
    run (ops.map ArithCall.call) ⟨some v, [], none⟩
      = some ⟨some (ops.foldl ArithCall.eval v), [], none⟩ := by
  induction ops with
  | nil => intro v _; rfl
  | cons c ops ih =>
    intro v h
    have hc : convertToBigInt c.val = .ok c.k := h c (List.mem_cons_self _ _)
    have hrest : ∀ c' ∈ ops, convertToBigInt c'.val = .ok c'.k :=
      fun c' hc' => h c' (List.mem_cons_of_mem _ hc')
    have hstep : c.call.apply ⟨some v, [], none⟩ = some ⟨some (ArithCall.eval v c), [], none⟩ := by
      obtain ⟨op, val, k⟩ := c
      cases op <;>
        simp [ArithCall.call, ArithCall.eval, Call.apply, BigIntChain.Add, BigIntChain.Subtract,
          BigIntChain.Multiply, BigIntChain.operate, show convertToBigInt val = .ok k from hc]
    simp only [List.map_cons, run, hstep, Option.some_bind, List.foldl_cons]
    exact ih _ hrest

/-- C7: a chain built from an operand that coerces to `v`, followed by any list
of `Add`, `Subtract` and `Multiply` calls whose operands coerce to integers,
returns from `Value` no error and the left-to-right fold of the list from `v`. -/
theorem calls_apply_in_order (val : Operand) (v : Int) (ops : List ArithCall)
    (h0 : convertToBigInt val = .ok v)
    (h : ∀ c ∈ ops, convertToBigInt c.val = .ok c.k) :
    ∃ bc', run (ops.map ArithCall.call) (NewBigIntChain val) = some bc' ∧
      bc'.Value = (some (ops.foldl ArithCall.eval v), none) := by
  have hnew : NewBigIntChain val = ⟨some v, [], none⟩ := by simp [NewBigIntChain, h0]
  rw [hnew]
  exact ⟨_, arith_run ops v h, by simp [BigIntChain.Value]⟩

theorem calls_apply_in_order_witness :
    ∃ bc', run ([⟨.add, .signed .int 3, 3⟩, ⟨.multiply, .str "0x10", 16⟩,
          ⟨.subtract, .bigInt 7, 7⟩].map ArithCall.call)
        (NewBigIntChain (.signed .int 2)) = some bc' ∧
      bc'.Value = (some ([⟨.add, .signed .int 3, 3⟩, ⟨.multiply, .str "0x10", 16⟩,
          ⟨.subtract, .bigInt 7, 7⟩].foldl ArithCall.eval 2), none) :=
  calls_apply_in_order (.signed .int 2) 2
    [⟨.add, .signed .int 3, 3⟩, ⟨.multiply, .str "0x10", 16⟩, ⟨.subtract, .bigInt 7, 7⟩]
    (by decide) (by decide)

/-! ## Failure atomicity -/

/-- C8: on an error-free chain with a present accumulator every single call
returns, and a call that records an error leaves the accumulator and the stack
as they were before the call. -/
theorem failure_atomicity (bc : BigIntChain) (a : Int) (c : Call)
    (he : bc.err = none) (hv : bc.value = some a) :
    ∃ bc', c.apply bc = some bc' ∧
      (bc'.err ≠ none → bc'.value = bc.value ∧ bc'.stack = bc.stack) := by
  rcases c.four_cases with hc | rfl | rfl | rfl
  · obtain ⟨bc1, a1, h1, _, hst, _, _, hval⟩ := apply_operate_spec c hc bc a hv
    exact ⟨bc1, h1, fun h => ⟨hval he h, hst⟩⟩
  · exact ⟨_, apply_abs bc a hv, fun h => absurd he h⟩
  · exact ⟨_, apply_begin bc a hv, fun h => absurd he h⟩
  · rcases List.eq_nil_or_concat bc.stack with hs | ⟨L, b, hs⟩
    · exact ⟨_, End_of_nil bc hs, fun _ => ⟨rfl, rfl⟩⟩
    · rw [List.concat_eq_append] at hs
      exact ⟨_, End_of_concat bc L b a hs hv, fun h => absurd he h⟩

theorem failure_atomicity_witness :
    ∃ bc', (Call.pow (.signed .int 65)).apply ⟨some 3, [5], none⟩ = some bc' ∧
      (bc'.err ≠ none → bc'.value = (⟨some 3, [5], none⟩ : BigIntChain).value ∧
        bc'.stack = (⟨some 3, [5], none⟩ : BigIntChain).stack) :=
  failure_atomicity ⟨some 3, [5], none⟩ 3 (.pow (.signed .int 65)) rfl rfl

/-! ## Failed construction -/

theorem failed_construction (val : Operand) (e : ChainError)
    (h : convertToBigInt val = .error e) :
    NewBigIntChain val = ⟨none, [], some e⟩ ∧
      (NewBigIntChain val).Begin = none ∧ (NewBigIntChain val).Abs = none ∧
      (NewBigIntChain val).End = some ⟨none, [], some .mismatchedBrackets⟩ := by
  have hnew : NewBigIntChain val = ⟨none, [], some e⟩ := by simp [NewBigIntChain, h]
  rw [hnew]
  simp [BigIntChain.Begin, BigIntChain.Abs, BigIntChain.End]

/-- C9 against the code: `NewBigIntChain("invalid")` holds the coercion error
and a nil accumulator; `Begin()` and `Abs()` then dereference the nil
accumulator, and `End()` replaces the coercion error by `mismatched brackets`,
which is what `Value()` returns afterwards. -/
theorem failed_construction_faults :
    NewBigIntChain (.str "invalid") = ⟨none, [], some .invalidNumericString⟩ ∧
      (NewBigIntChain (.str "invalid")).Begin = none ∧
      (NewBigIntChain (.str "invalid")).Abs = none ∧
      (NewBigIntChain (.str "invalid")).End = some ⟨none, [], some .mismatchedBrackets⟩ ∧
      ((NewBigIntChain (.str "invalid")).End.map BigIntChain.Value)
        = some (none, some .mismatchedBrackets) := by
  decide

/-! ## The exponent bound of `Pow` -/

/-- C10 against the code: the operand `"18446744073709551616"` coerces to
`2^64`, which is above 64, yet its low 64 bits are zero, so `Pow` records no
error and raises the accumulator `1` to that power. -/
theorem pow_accepts_two_pow_64 :
    convertToBigInt (.str "18446744073709551616") = .ok 18446744073709551616 ∧
      (18446744073709551616 : Int) = 2 ^ 64 ∧
      asUint64 (bigInt64 18446744073709551616) = 0 ∧
      BigIntChain.Pow ⟨some 1, [], none⟩ (.str "18446744073709551616")
        = some ⟨some 1, [], none⟩ := by
  have hc : convertToBigInt (.str "18446744073709551616") = .ok 18446744073709551616 := by
    decide
  have hz : asUint64 (bigInt64 18446744073709551616) = 0 := by decide
  refine ⟨hc, by norm_num, hz, ?_⟩
  unfold BigIntChain.Pow
  rw [operate_of_ok _ _ _ 1 18446744073709551616 rfl rfl hc (by simp [hz])]
  simp [hz, bigExp]

/-! ## Machine-integer conversions -/

theorem asUint64_bigInt64 (e : Int) : (asUint64 (bigInt64 e) : Int) = e % 2 ^ 64 := by
  have h64 : (2 : Int) ^ 64 = 18446744073709551616 := by norm_num
  have h63 : (2 : Int) ^ 63 = 9223372036854775808 := by norm_num
  have n64 : (2 : Nat) ^ 64 = 18446744073709551616 := by norm_num
  unfold asUint64 bigInt64 asInt64
  simp only [h64, h63, n64]
  split_ifs with h <;> omega

theorem asInt64_of_range (n : Int) (h1 : -(2 ^ 63) ≤ n) (h2 : n < 2 ^ 63) : asInt64 n = n := by
  have h64 : (2 : Int) ^ 64 = 18446744073709551616 := by norm_num
  have h63 : (2 : Int) ^ 63 = 9223372036854775808 := by norm_num
  unfold asInt64
  rw [h63] at h1 h2
  simp only [h64, h63]
  omega

theorem pow_check_iff (e : Int) : asUint64 (bigInt64 e) > 64 ↔ 64 < e % 2 ^ 64 := by
  rw [← asUint64_bigInt64 e]
  omega

/-! ## `Pow` -/

/-- C11: on an error-free chain with accumulator `a`, `Pow` with an operand that
coerces to `e`, `0 ≤ e ≤ 64`, stores exactly `a ^ e` (so `1` for `e = 0`, also
when `a = 0`), and leaves the stack and the unset error as they were. -/
theorem pow_exact (bc : BigIntChain) (val : Operand) (a e : Int)
    (he : bc.err = none) (hv : bc.value = some a) (hc : convertToBigInt val = .ok e)
    (h0 : 0 ≤ e) (h64 : e ≤ 64) :
    bc.Pow val = some { value := some (a ^ e.toNat), stack := bc.stack, err := none } := by
  have hchk : ¬ asUint64 (bigInt64 e) > 64 := by
    rw [pow_check_iff]
    have : e % 2 ^ 64 = e := Int.emod_eq_of_lt h0 (by norm_num; omega)
    omega
  have hexp : bigExp a e = a ^ e.toNat := by
    unfold bigExp
    split_ifs with h
    · have : e = 0 := by omega
      subst this; simp
    · rfl
  unfold BigIntChain.Pow
  rw [operate_of_ok bc val _ a e he hv hc (by simp only [if_neg hchk])]
  simp only [if_neg hchk, hexp, ← he]

theorem pow_exact_witness :
    BigIntChain.Pow ⟨some 3, [7], none⟩ (.signed .int 4)
      = some { value := some (3 ^ (4 : Int).toNat), stack := [7], err := none } :=
  pow_exact ⟨some 3, [7], none⟩ (.signed .int 4) 3 4 rfl rfl (by decide) (by decide)
    (by decide)

/-- C17, as the code has it: on an error-free chain with accumulator `a`, for an
operand that coerces to a negative exponent `e`, the check looks at
`e mod 2^64`: when that is above 64 `Pow` records `exponent too large` and keeps
the accumulator, and when it is at most 64 `Pow` records nothing and stores `1`. -/
theorem pow_negative_exponent (bc : BigIntChain) (val : Operand) (a e : Int)
    (he : bc.err = none) (hv : bc.value = some a) (hc : convertToBigInt val = .ok e)
    (hneg : e < 0) :
    (64 < e % 2 ^ 64 →
        bc.Pow val = some { value := some a, stack := bc.stack, err := some .exponentTooLarge }) ∧
      (e % 2 ^ 64 ≤ 64 →
        bc.Pow val = some { value := some 1, stack := bc.stack, err := none }) := by
  constructor
  · intro h
    have hchk : asUint64 (bigInt64 e) > 64 := (pow_check_iff e).mpr h
    unfold BigIntChain.Pow
    rw [operate_of_fail bc val _ a e .exponentTooLarge he hv hc (by simp only [if_pos hchk])]
    simp only [if_pos hchk]
  · intro h
    have hchk : ¬ asUint64 (bigInt64 e) > 64 := by rw [pow_check_iff]; omega
    have hexp : bigExp a e = 1 := by unfold bigExp; rw [if_pos (by omega)]
    unfold BigIntChain.Pow
    rw [operate_of_ok bc val _ a e he hv hc (by simp only [if_neg hchk])]
    simp only [if_neg hchk, hexp, ← he]

theorem pow_negative_exponent_witness :
    (64 < (-18446744073709551616 : Int) % 2 ^ 64 →
        BigIntChain.Pow ⟨some 5, [], none⟩ (.str "-18446744073709551616")
          = some { value := some 5, stack := [], err := some .exponentTooLarge }) ∧
      ((-18446744073709551616 : Int) % 2 ^ 64 ≤ 64 →
        BigIntChain.Pow ⟨some 5, [], none⟩ (.str "-18446744073709551616")
          = some { value := some 1, stack := [], err := none }) :=
  pow_negative_exponent ⟨some 5, [], none⟩ (.str "-18446744073709551616") 5
    (-18446744073709551616) rfl rfl (by decide) (by decide)

/-- C17 fails as stated: the exponent `-1` does not pass the check, since
`uint64(int64(-1))` is `2^64 - 1`; `Pow(-1)` records `exponent too large`. -/
theorem pow_rejects_minus_one :
    asUint64 (bigInt64 (-1)) = 18446744073709551615 ∧
      BigIntChain.Pow ⟨some 2, [], none⟩ (.signed .int (-1))
        = some ⟨some 2, [], some .exponentTooLarge⟩ := by
  decide

/-! ## `Divide` and `Mod` together -/

/-- C18: on an error-free chain holding `a`, with an operand that coerces to
`b ≠ 0`, the quotient `q` stored by `Divide` and the remainder `r` stored by
`Mod` satisfy `a = q * b + r` and `0 ≤ r < |b|`. -/
theorem divide_mod_agree (bc : BigIntChain) (val : Operand) (a b : Int)
    (he : bc.err = none) (hv : bc.value = some a)
    (hc : convertToBigInt val = .ok b) (hb : b ≠ 0) :
    ∃ q r : Int,
      bc.Divide val = some { value := some q, stack := bc.stack, err := none } ∧
      bc.Mod val = some { value := some r, stack := bc.stack, err := none } ∧
      a = q * b + r ∧ 0 ≤ r ∧ r < |b| := by
  refine ⟨bigDiv a b, bigMod a b, ?_, ?_, ?_, (bigMod_bounds a b hb).1, (bigMod_bounds a b hb).2⟩
  · unfold BigIntChain.Divide
    rw [operate_of_ok bc val _ a b he hv hc (by simp [hb])]
    simp [hb, he]
  · unfold BigIntChain.Mod
    rw [operate_of_ok bc val _ a b he hv hc (by simp [hb])]
    simp [hb, he]
  · have := bigMod_add_bigDiv a b
    linarith

theorem divide_mod_agree_witness :
    ∃ q r : Int,
      BigIntChain.Divide ⟨some (-7), [], none⟩ (.signed .int 2)
        = some { value := some q, stack := [], err := none } ∧
      BigIntChain.Mod ⟨some (-7), [], none⟩ (.signed .int 2)
        = some { value := some r, stack := [], err := none } ∧
      (-7 : Int) = q * 2 + r ∧ 0 ≤ r ∧ r < |(2 : Int)| :=
  divide_mod_agree ⟨some (-7), [], none⟩ (.signed .int 2) (-7) 2 rfl rfl (by decide)
    (by decide)

/-! ## Calls on a chain that holds an error -/

/-- C20: on a chain with a recorded error, each of `Add`, `Subtract`,
`Multiply`, `Divide`, `Mod` and `Pow`, with any operand at all, returns the
chain as it was: accumulator, stack and error are unchanged. -/
theorem operand_calls_inert (bc : BigIntChain) (val : Operand) (e : ChainError)
    (he : bc.err = some e) :
    bc.Add val = some bc ∧ bc.Subtract val = some bc ∧ bc.Multiply val = some bc ∧
      bc.Divide val = some bc ∧ bc.Mod val = some bc ∧ bc.Pow val = some bc :=
  ⟨operate_of_err bc val _ e he, operate_of_err bc val _ e he, operate_of_err bc val _ e he,
    operate_of_err bc val _ e he, operate_of_err bc val _ e he, operate_of_err bc val _ e he⟩

theorem operand_calls_inert_witness :
    BigIntChain.Add ⟨none, [3], some .invalidNumericString⟩ (.other "bool")
        = some ⟨none, [3], some .invalidNumericString⟩ ∧
      BigIntChain.Subtract ⟨none, [3], some .invalidNumericString⟩ (.other "bool")
        = some ⟨none, [3], some .invalidNumericString⟩ ∧
      BigIntChain.Multiply ⟨none, [3], some .invalidNumericString⟩ (.other "bool")
        = some ⟨none, [3], some .invalidNumericString⟩ ∧
      BigIntChain.Divide ⟨none, [3], some .invalidNumericString⟩ (.other "bool")
        = some ⟨none, [3], some .invalidNumericString⟩ ∧
      BigIntChain.Mod ⟨none, [3], some .invalidNumericString⟩ (.other "bool")
        = some ⟨none, [3], some .invalidNumericString⟩ ∧
      BigIntChain.Pow ⟨none, [3], some .invalidNumericString⟩ (.other "bool")
        = some ⟨none, [3], some .invalidNumericString⟩ :=
  operand_calls_inert ⟨none, [3], some .invalidNumericString⟩ (.other "bool")
    .invalidNumericString rfl

theorem apply_total_of_value (c : Call) (bc : BigIntChain) (a : Int)
    (hv : bc.value = some a) : ∃ bc', c.apply bc = some bc' := by
  rcases c.four_cases with hc | rfl | rfl | rfl
  · obtain ⟨bc1, _, h1, _⟩ := apply_operate_spec c hc bc a hv
    exact ⟨bc1, h1⟩
  · exact ⟨_, apply_abs bc a hv⟩
  · exact ⟨_, apply_begin bc a hv⟩
  · rcases List.eq_nil_or_concat bc.stack with hs | ⟨L, b, hs⟩
    · exact ⟨_, End_of_nil bc hs⟩
    · rw [List.concat_eq_append] at hs
      exact ⟨_, End_of_concat bc L b a hs hv⟩

theorem apply_keeps_error_set (c : Call) (bc bc' : BigIntChain) (e : ChainError)
    (he : bc.err = some e) (h : c.apply bc = some bc') : bc'.err ≠ none := by
  cases c with
  | abs =>
    simp only [Call.apply, BigIntChain.Abs] at h
    split at h
    · cases h
    · cases h; simp [he]
  | begin_ =>
    simp only [Call.apply, BigIntChain.Begin] at h
    split at h
    · cases h
    · cases h; simp [he]
  | end_ =>
    simp only [Call.apply, BigIntChain.End] at h
    split at h
    · cases h; simp
    · split at h
      · cases h; simp [he]
      · cases h
  | _ =>
    simp only [Call.apply, BigIntChain.Add, BigIntChain.Subtract, BigIntChain.Multiply,
      BigIntChain.Divide, BigIntChain.Mod, BigIntChain.Pow, operate_of_err bc _ _ e he] at h
    cases h; simp [he]

/-- C15: on a chain with a recorded error, no call clears it: whatever chain a
call of `Add`, `Subtract`, `Multiply`, `Divide`, `Mod`, `Pow`, `Abs`, `Begin` or
`End` returns still has an error recorded, the call does return when the
accumulator is present, and `Value` (which changes nothing) reports an error. -/
theorem error_monotonic (bc : BigIntChain) (e : ChainError) (c : Call)
    (he : bc.err = some e) :
    (∀ bc', c.apply bc = some bc' → bc'.err ≠ none) ∧
      (bc.value ≠ none → ∃ bc', c.apply bc = some bc' ∧ bc'.err ≠ none) ∧
      bc.Value.2 ≠ none := by
  refine ⟨fun bc' h => apply_keeps_error_set c bc bc' e he h, fun hv => ?_, ?_⟩
  · cases hval : bc.value with
    | none => exact absurd hval hv
    | some a =>
      obtain ⟨bc', h⟩ := apply_total_of_value c bc a hval
      exact ⟨bc', h, apply_keeps_error_set c bc bc' e he h⟩
  · unfold BigIntChain.Value
    split_ifs <;> simp [he]

theorem error_monotonic_witness :
    (∀ bc', Call.end_.apply ⟨some 20, [], some .divisionByZero⟩ = some bc' → bc'.err ≠ none) ∧
      ((⟨some 20, [], some .divisionByZero⟩ : BigIntChain).value ≠ none →
        ∃ bc', Call.end_.apply ⟨some 20, [], some .divisionByZero⟩ = some bc' ∧
          bc'.err ≠ none) ∧
      (BigIntChain.Value ⟨some 20, [], some .divisionByZero⟩).2 ≠ none :=
  error_monotonic ⟨some 20, [], some .divisionByZero⟩ .divisionByZero .end_ rfl

/-! ## Coercion of native unsigned integers -/

theorem unsigned_exact_below (t : UnsignedType) (v : Nat) (h : v < 2 ^ 63) :
    convertToBigInt (.unsigned t v) = .ok (v : Int) := by
  have h' : ((v : Nat) : Int) < 2 ^ 63 := by exact_mod_cast h
  simp only [convertToBigInt]
  rw [asInt64_of_range (v : Int) (by have : (0 : Int) ≤ v := Int.ofNat_nonneg v; norm_num; omega) h']

/-- C12 against the code: a `uint` holding `2^63` is well typed on a 64-bit
platform, but goes through `int64(...)` and comes out as `-2^63`; the `uint64`
case, which calls `SetUint64`, gives `2^63` for the same number. -/
theorem uint_conversion_wraps :
    Operand.wellTyped (.unsigned .uint 9223372036854775808) ∧
      convertToBigInt (.unsigned .uint 9223372036854775808) = .ok (-9223372036854775808) ∧
      convertToBigInt (.uint64 9223372036854775808) = .ok 9223372036854775808 := by
  decide

/-! ## Hexadecimal strings -/

/-- C14 against the code: for `"0x0X10"` the remainder after the two-character
prefix is `"0X10"`, which is no base-16 numeral, yet the code strips `"0x"` and
then `"0X"` and returns 16; the mirrored `"0X0x10"` loses one prefix only and is
rejected. -/
theorem hex_prefix_stripped_twice :
    bigSetString "0X10".toList 16 = none ∧
      convertToBigInt (.str "0x0X10") = .ok 16 ∧
      convertToBigInt (.str "0X0x10") = .error .invalidNumericString := by
  decide

/-! ## Brackets around additions -/

theorem grouped_sum_run (cs : List GroupCall) : ∀ (s t : List Int) (a : Int),
    (∀ c ∈ cs, c.coerces) → balancedFrom t.length (cs.map GroupCall.call) →
    run (cs.map GroupCall.call) ⟨some a, s ++ t, none⟩
      = some ⟨some (a + t.sum + (cs.map GroupCall.amount).sum), s, none⟩ := by
  induction cs with
  | nil =>
    intro s t a _ hb
    have ht : t = [] := List.length_eq_zero.mp ((balancedFrom_nil _).mp hb)
    subst ht
    simp [run]
  | cons c cs ih =>
    intro s t a hc hb
    have hrest : ∀ c' ∈ cs, c'.coerces := fun c' h => hc c' (List.mem_cons_of_mem _ h)
    cases c with
    | begin_ =>
      simp only [List.map_cons, GroupCall.call] at hb ⊢
      rw [balancedFrom_cons_begin] at hb
      have hb' : balancedFrom (t ++ [a]).length (cs.map GroupCall.call) := by
        simpa using hb
      have hstep : Call.begin_.apply ⟨some a, s ++ t, none⟩
          = some ⟨some 0, s ++ (t ++ [a]), none⟩ := by
        simp [Call.apply, BigIntChain.Begin]
      simp only [run, hstep, Option.some_bind]
      rw [ih s (t ++ [a]) 0 hrest hb']
      simp [GroupCall.amount]
      ring
    | end_ =>
      simp only [List.map_cons, GroupCall.call] at hb ⊢
      rcases List.eq_nil_or_concat t with ht | ⟨t', b, ht⟩
      · subst ht
        exact absurd hb (balancedFrom_cons_end_zero _)
      · rw [List.concat_eq_append] at ht
        subst ht
        have hb' : balancedFrom t'.length (cs.map GroupCall.call) := by
          rw [List.length_append, List.length_singleton, balancedFrom_cons_end_succ] at hb
          exact hb
        have hstep : Call.end_.apply ⟨some a, s ++ (t' ++ [b]), none⟩
            = some ⟨some (b + a), s ++ t', none⟩ := by
          have := End_of_concat ⟨some a, s ++ (t' ++ [b]), none⟩ (s ++ t') b a
            (by simp) rfl
          simpa [Call.apply] using this
        simp only [run, hstep, Option.some_bind]
        rw [ih s t' (b + a) hrest hb']
        simp [GroupCall.amount]
        ring
    | add v k =>
      have hk : convertToBigInt v = .ok k := hc (.add v k) (List.mem_cons_self _ _)
      simp only [List.map_cons, GroupCall.call] at hb ⊢
      rw [balancedFrom_cons_same (.add v) _ _
        (count_cons_operate (.add v) (by simp [Call.IsOperate]))] at hb
      have hstep : (Call.add v).apply ⟨some a, s ++ t, none⟩
          = some ⟨some (a + k), s ++ t, none⟩ := by
        simp [Call.apply, BigIntChain.Add, BigIntChain.operate, hk]
      simp only [run, hstep, Option.some_bind]
      rw [ih s t (a + k) hrest hb]
      simp [GroupCall.amount]
      ring

/-- C19: on an error-free chain with accumulator `v` and stack `s`, every
bracket-balanced sequence made only of `Begin()`, `End()` and `Add(k_i)` calls
whose operands coerce to integers leaves the accumulator at `v` plus the sum of
all `k_i`, the stack at `s`, and no error. -/
theorem brackets_transparent (bc : BigIntChain) (v : Int) (cs : List GroupCall)
    (he : bc.err = none) (hv : bc.value = some v)
    (hc : ∀ c ∈ cs, c.coerces)
    (hb : bracketBalanced (cs.map GroupCall.call)) :
    run (cs.map GroupCall.call) bc
      = some { value := some (v + (cs.map GroupCall.amount).sum), stack := bc.stack,
               err := none } := by
  have hbc : bc = ⟨some v, bc.stack ++ [], none⟩ := by
    cases bc; simp_all
  have hb' : balancedFrom ([] : List Int).length (cs.map GroupCall.call) :=
    (bracketBalanced_iff _).mp hb
  have := grouped_sum_run cs bc.stack [] v hc hb'
  rw [← hbc] at this
  rw [this]
  simp

theorem brackets_transparent_witness :
    run ([GroupCall.begin_, .add (.signed .int 1) 1, .begin_, .add (.str "0x10") 16, .end_,
          .add (.bigInt 5) 5, .end_, .add (.signed .int8 (-2)) (-2)].map GroupCall.call)
        ⟨some 10, [4], none⟩
      = some { value := some (10 + ([GroupCall.begin_, .add (.signed .int 1) 1, .begin_,
                  .add (.str "0x10") 16, .end_, .add (.bigInt 5) 5, .end_,
                  .add (.signed .int8 (-2)) (-2)].map GroupCall.amount).sum),
               stack := (⟨some 10, [4], none⟩ : BigIntChain).stack, err := none } :=
  brackets_transparent ⟨some 10, [4], none⟩ 10
    [.begin_, .add (.signed .int 1) 1, .begin_, .add (.str "0x10") 16, .end_,
      .add (.bigInt 5) 5, .end_, .add (.signed .int8 (-2)) (-2)]
    rfl rfl (by decide) (by decide)

/-! ## Decimal strings -/

theorem digitVal_digitChar (d : Nat) (h : d < 10) : digitVal (Nat.digitChar d) = some d := by
  interval_cases d <;> decide

theorem scan_toDigitsCore (fuel : Nat) : ∀ (n : Nat) (ds : List Char), n < fuel →
    scanDigits 10 (Nat.toDigitsCore 10 fuel n ds) 0 = scanDigits 10 ds n := by
  induction fuel with
  | zero => intro n ds h; omega
  | succ fuel ih =>
    intro n ds h
    have hd : digitVal (Nat.digitChar (n % 10)) = some (n % 10) :=
      digitVal_digitChar _ (Nat.mod_lt _ (by decide))
    have hlt : n % 10 < 10 := Nat.mod_lt _ (by decide)
    unfold Nat.toDigitsCore
    simp only
    split_ifs with h0
    · have hn : n % 10 = n := Nat.mod_eq_of_lt (by omega)
      simp only [scanDigits]
      rw [hd]
      simp only [hlt, if_true, Nat.zero_mul, Nat.zero_add]
      rw [hn]
    · rw [ih (n / 10) _ (by omega)]
      simp only [scanDigits, hd, hlt, if_true]
      congr 1
      omega

theorem scan_toDigits (n : Nat) : scanDigits 10 (Nat.toDigits 10 n) 0 = some n := by
  unfold Nat.toDigits
  rw [scan_toDigitsCore (n + 1) n [] (by omega)]
  rfl

theorem toDigitsCore_ne_nil (fuel : Nat) : ∀ (n : Nat) (ds : List Char), ds ≠ [] →
    Nat.toDigitsCore 10 fuel n ds ≠ [] := by
  induction fuel with
  | zero => intro n ds h; simpa [Nat.toDigitsCore] using h
  | succ fuel ih =>
    intro n ds _
    unfold Nat.toDigitsCore
    simp only
    split_ifs
    · simp
    · exact ih _ _ (by simp)

theorem toDigits_ne_nil (n : Nat) : Nat.toDigits 10 n ≠ [] := by
  unfold Nat.toDigits Nat.toDigitsCore
  simp only
  split_ifs
  · simp
  · exact toDigitsCore_ne_nil _ _ _ (by simp)

theorem scan_cons (b : Nat) (c : Char) (cs : List Char) (acc k : Nat)
    (h : scanDigits b (c :: cs) acc = some k) :
    ∃ d, digitVal c = some d ∧ d < b ∧ scanDigits b cs (acc * b + d) = some k := by
  unfold scanDigits at h
  split at h
  · rename_i d hd
    split_ifs at h with hlt
    exact ⟨d, hd, hlt, h⟩
  · cases h

theorem convertString_digits (ds : List Char) (n : Nat) (hne : ds ≠ [])
    (hs : scanDigits 10 ds 0 = some n) :
    convertString ds = .ok (n : Int) ∧ convertString ('-' :: ds) = .ok (-(n : Int)) := by
  obtain ⟨c, cs, rfl⟩ := List.exists_cons_of_ne_nil hne
  obtain ⟨d, hd, hlt, hrest⟩ := scan_cons 10 c cs 0 n hs
  have hminus : c ≠ '-' := by
    rintro rfl
    have : digitVal '-' = none := by decide
    rw [this] at hd; cases hd
  have hplus : c ≠ '+' := by
    rintro rfl
    have : digitVal '+' = none := by decide
    rw [this] at hd; cases hd
  have hx : "0x".toList = ['0', 'x'] := rfl
  have hX : "0X".toList = ['0', 'X'] := rfl
  have hnox : hasPrefix (c :: cs) ['0', 'x'] = false ∧ hasPrefix (c :: cs) ['0', 'X'] = false := by
    cases cs with
    | nil => simp [hasPrefix, List.isPrefixOf]
    | cons c2 cs2 =>
      obtain ⟨d2, hd2, hlt2, _⟩ := scan_cons 10 c2 cs2 _ n hrest
      have h1 : c2 ≠ 'x' := by
        rintro rfl
        have : digitVal 'x' = some 33 := by decide
        rw [this] at hd2; cases hd2; omega
      have h2 : c2 ≠ 'X' := by
        rintro rfl
        have : digitVal 'X' = some 33 := by decide
        rw [this] at hd2; cases hd2; omega
      simp [hasPrefix, List.isPrefixOf, h1.symm, h2.symm]
  have hneg : hasPrefix ('-' :: c :: cs) ['0', 'x'] = false ∧
      hasPrefix ('-' :: c :: cs) ['0', 'X'] = false := by
    simp [hasPrefix, List.isPrefixOf]
  constructor
  · unfold convertString
    simp only [hx, hX, hnox.1, hnox.2, Bool.or_self, Bool.false_eq_true, if_false]
    have : bigSetString (c :: cs) 10 = some (n : Int) := by
      unfold bigSetString
      split
      · rename_i heq; cases heq; exact absurd rfl hminus
      · rename_i heq; cases heq; exact absurd rfl hplus
      · simp [hs]
    rw [this]
  · unfold convertString
    simp only [hx, hX, hneg.1, hneg.2, Bool.or_self, Bool.false_eq_true, if_false]
    have : bigSetString ('-' :: c :: cs) 10 = some (-(n : Int)) := by
      simp [bigSetString, hs]
    rw [this]

theorem convert_decimalString (n : Int) :
    convertToBigInt (.str (decimalString n)) = .ok n := by
  have h := convertString_digits (Nat.toDigits 10 n.natAbs) n.natAbs (toDigits_ne_nil _)
    (scan_toDigits _)
  unfold decimalString
  split_ifs with hn
  · have hl : ("-" ++ Nat.repr n.natAbs).toList = '-' :: Nat.toDigits 10 n.natAbs := by
      simp [Nat.repr, String.toList, String.data_append, List.asString]
    simp only [convertToBigInt]
    rw [hl, h.2]
    congr 1
    omega
  · have hl : (Nat.repr n.natAbs).toList = Nat.toDigits 10 n.natAbs := by
      simp [Nat.repr, String.toList, List.asString]
    simp only [convertToBigInt]
    rw [hl, h.1]
    congr 1
    omega

theorem signed_range (t : SignedType) (n : Int) (hw : (Operand.signed t n).wellTyped) :
    -(2 ^ 63) ≤ n ∧ n < 2 ^ 63 := by
  unfold Operand.wellTyped at hw
  cases t <;> simp only [SignedType.bits] at hw <;> norm_num at hw ⊢ <;> omega

/-- C13: for every native signed integer `n` (a value its type can hold, so any
`int64` value in particular), `convertToBigInt` of the decimal string of `n` and
of `n` itself both succeed and both return `n`. -/
theorem coercion_round_trip (t : SignedType) (n : Int)
    (hw : (Operand.signed t n).wellTyped) :
    convertToBigInt (.str (decimalString n)) = .ok n ∧
      convertToBigInt (.signed t n) = .ok n := by
  refine ⟨convert_decimalString n, ?_⟩
  obtain ⟨h1, h2⟩ := signed_range t n hw
  simp only [convertToBigInt]
  rw [asInt64_of_range n h1 h2]

theorem coercion_round_trip_witness :
    convertToBigInt (.str (decimalString (-9223372036854775808))) = .ok (-9223372036854775808) ∧
      convertToBigInt (.signed .int64 (-9223372036854775808)) = .ok (-9223372036854775808) :=
  coercion_round_trip .int64 (-9223372036854775808) (by decide)

/-! ## `BigFloatChain.Divide` -/

theorem isZero_iff (b : BigFloat) : b.isZero = true ↔ ∃ e, b = .fin 0 e := by
  cases b with
  | fin m e =>
    simp only [BigFloat.isZero, decide_eq_true_eq]
    constructor
    · rintro rfl; exact ⟨e, rfl⟩
    · rintro ⟨e', h⟩; cases h; rfl
  | inf s => simp [BigFloat.isZero]

theorem isZero_false_of_ne (b : BigFloat) (h : ∀ e, b ≠ .fin 0 e) : b.isZero = false := by
  cases hb : b.isZero with
  | false => rfl
  | true =>
    obtain ⟨e, he⟩ := (isZero_iff b).mp hb
    exact absurd he (h e)

/-- C16: take an error-free float chain with an empty stack and accumulator `a`.
An operand that coerces to the value zero (mantissa `0`, any exponent) makes
`Divide` record `division by zero` and keep the accumulator, and `Value` then
returns that error. An operand that coerces to any other value, however small,
records no error: `Divide` stores the quotient, except that `Quo` panics when
accumulator and operand are both infinite. -/
theorem float_divide_zero (lib : BigFloatLib) (bfc : BigFloatChain) (val0 val1 : Operand)
    (a b1 : BigFloat) (e0 : Int)
    (he : bfc.err = none) (hs : bfc.stack = []) (hv : bfc.value = some a)
    (hc0 : convertToBigFloat lib val0 = some (.ok (.fin 0 e0)))
    (hc1 : convertToBigFloat lib val1 = some (.ok b1))
    (hnz : ∀ e, b1 ≠ .fin 0 e) :
    bfc.Divide lib val0 = some { value := some a, stack := [], err := some .divisionByZero } ∧
      (bfc.Divide lib val0).map BigFloatChain.Value = some (some a, some .divisionByZero) ∧
      (((∃ s t, a = .inf s ∧ b1 = .inf t) ∧ bfc.Divide lib val1 = none) ∨
        ((¬ ∃ s t, a = .inf s ∧ b1 = .inf t) ∧
          bfc.Divide lib val1
            = some { value := some (lib.Quo a b1), stack := [], err := none })) ∧
      (∀ bfc', bfc.Divide lib val1 = some bfc' → bfc'.err = none) := by
  have hz0 : (BigFloat.fin 0 e0).isZero = true := (isZero_iff _).mpr ⟨e0, rfl⟩
  have hz1 : b1.isZero = false := isZero_false_of_ne b1 hnz
  have hdiv0 : bfc.Divide lib val0
      = some { value := some a, stack := [], err := some .divisionByZero } := by
    simp [BigFloatChain.Divide, BigFloatChain.operate, he, hc0, hv, hz0, hs]
  have hdiv1 : ((∃ s t, a = .inf s ∧ b1 = .inf t) ∧ bfc.Divide lib val1 = none) ∨
      ((¬ ∃ s t, a = .inf s ∧ b1 = .inf t) ∧
        bfc.Divide lib val1
          = some { value := some (lib.Quo a b1), stack := [], err := none }) := by
    cases a <;> cases b1 <;>
      simp [BigFloatChain.Divide, BigFloatChain.operate, he, hc1, hv, hz1, hs,
        BigFloat.isInf]
  refine ⟨hdiv0, ?_, hdiv1, ?_⟩
  · rw [hdiv0]; simp [BigFloatChain.Value]
  · intro bfc' h
    rcases hdiv1 with ⟨_, h1⟩ | ⟨_, h1⟩
    · rw [h1] at h; cases h
    · rw [h1] at h; cases h; rfl

theorem float_divide_zero_witness :
    BigFloatChain.Divide ⟨some (.fin 20 0), [], none⟩ ⟨fun _ => none, fun x _ => x⟩
          (.signed .int 0)
        = some { value := some (.fin 20 0), stack := [], err := some .divisionByZero } ∧
      (BigFloatChain.Divide ⟨some (.fin 20 0), [], none⟩ ⟨fun _ => none, fun x _ => x⟩
          (.signed .int 0)).map BigFloatChain.Value
        = some (some (.fin 20 0), some .divisionByZero) ∧
      (((∃ s t, BigFloat.fin 20 0 = .inf s ∧ BigFloat.fin 1 (-1074) = .inf t) ∧
          BigFloatChain.Divide ⟨some (.fin 20 0), [], none⟩ ⟨fun _ => none, fun x _ => x⟩
            (.float .float64 (.fin 1 (-1074))) = none) ∨
        ((¬ ∃ s t, BigFloat.fin 20 0 = .inf s ∧ BigFloat.fin 1 (-1074) = .inf t) ∧
          BigFloatChain.Divide ⟨some (.fin 20 0), [], none⟩ ⟨fun _ => none, fun x _ => x⟩
              (.float .float64 (.fin 1 (-1074)))
            = some { value := some ((⟨fun _ => none, fun x _ => x⟩ : BigFloatLib).Quo
                (.fin 20 0) (.fin 1 (-1074))), stack := [], err := none })) ∧
      (∀ bfc', BigFloatChain.Divide ⟨some (.fin 20 0), [], none⟩
          ⟨fun _ => none, fun x _ => x⟩ (.float .float64 (.fin 1 (-1074))) = some bfc' →
        bfc'.err = none) :=
  float_divide_zero ⟨fun _ => none, fun x _ => x⟩ ⟨some (.fin 20 0), [], none⟩
    (.signed .int 0) (.float .float64 (.fin 1 (-1074))) (.fin 20 0) (.fin 1 (-1074)) 0
    rfl rfl rfl (by decide) (by decide) (by intro e h; cases h)

end Bignums
